import Mathlib

/-!
# Verification of the cxx-xtask tool-validation subsystem

This file gives a shallow embedding of `src/validation.rs` (and the pieces of
`src/config/xtask.rs` it reads) and proves the specification claims about it.

Modelling conventions:

* `String` stands for both Rust `String` and `OsString`.
* Rust `HashMap<String, String>` (the `tools` field) is modelled as an
  association list in insertion order with no duplicate keys.  A Rust hash map
  maintains no key order at all (its iteration order depends on a per-process
  random seed); insertion order is one admissible deterministic refinement and
  all content-level operations (`insert`, `extend`, lookup) agree with the hash
  map's semantics.
* Rust `BTreeMap<OsString, OsString>` (the `env_vars` field) is modelled as a
  key-sorted association list, which is exactly its iteration order.
* Subprocess spawning is modelled by a read-only probe oracle inside a `Sys`
  state; every spawn appends a `SpawnRecord` to `Sys.trace`.  The process-global
  environment is the `Sys.env` field; the source only ever reads it
  (`std::env::var_os`), which the model mirrors.
* A compiled regex matcher is modelled as its capture-extraction function
  `String → Option String` (the result of `captures` followed by `get(1)`);
  regex compilation itself (`Regex::new`) is assumed to succeed, which is the
  only case the claims concern.
-/

namespace CxxXtask

/-- Strict lexicographic order on character lists, comparing code points —
the order of Rust `Ord` on `String`/`OsString` (byte order agrees with code
points on ASCII data).  Defined as an executable boolean so that concrete
instances evaluate inside the kernel. -/
def charListLtB : List Char → List Char → Bool
  | [], [] => false
  | [], _ :: _ => true
  | _ :: _, [] => false
  | a :: as, b :: bs =>
    if a.toNat < b.toNat then true
    else if b.toNat < a.toNat then false
    else charListLtB as bs

/-- Strict order on strings, via their character lists. -/
def strLtB (a b : String) : Bool := charListLtB a.data b.data

/-- Association list of string keys and values; the common carrier for both
map models. -/
abbrev KVList := List (String × String)

/-- First-occurrence lookup, the lookup semantics of both Rust maps on
duplicate-free lists. -/
def lookupKV : KVList → String → Option String
  | [], _ => none
  | (k', v') :: t, k => if k = k' then some v' else lookupKV t k

/-- Keys of an association list. -/
def keysKV (l : KVList) : List String := l.map Prod.fst

/-- Rust `HashMap::insert`: replace the value in place if the key is present,
otherwise append the new binding (insertion order). -/
def hmInsert : KVList → String → String → KVList
  | [], k, v => [(k, v)]
  | (k', v') :: t, k, v => if k = k' then (k, v) :: t else (k', v') :: hmInsert t k v

/-- Rust `HashMap::extend`: insert every binding of `other`, later bindings
overwriting earlier ones. -/
def hmExtend (m other : KVList) : KVList :=
  other.foldl (fun acc kv => hmInsert acc kv.1 kv.2) m

/-- Rust `BTreeMap::insert`: insert the binding at its sorted position, replacing an
existing binding for the same key. -/
def btInsert : KVList → String → String → KVList
  | [], k, v => [(k, v)]
  | (k', v') :: t, k, v =>
    if strLtB k k' then (k, v) :: (k', v') :: t
    else if k = k' then (k, v) :: t
    else (k', v') :: btInsert t k v

/-- Rust `BTreeMap::extend`: insert every binding of `other`, later bindings
overwriting earlier ones. -/
def btExtend (m other : KVList) : KVList :=
  other.foldl (fun acc kv => btInsert acc kv.1 kv.2) m

/-- Keys are strictly sorted (the `BTreeMap` representation invariant). -/
def keysSorted (l : KVList) : Prop := (keysKV l).Pairwise (fun a b => strLtB a b = true)

/-- Keys occur at most once (the `HashMap` representation invariant). -/
def keysNodup (l : KVList) : Prop := (keysKV l).Nodup

instance (l : KVList) : Decidable (keysSorted l) := by unfold keysSorted; infer_instance

instance (l : KVList) : Decidable (keysNodup l) := by unfold keysNodup; infer_instance

/-- The `struct Validation` from `src/validation.rs`: the environment overlay
returned by tool validation.  `tools : HashMap<String, String>` maps logical
tool names to concrete binary names; `env_vars : BTreeMap<OsString, OsString>`
holds environment variables for the eventual subprocess. -/
structure Validation where
  tools : KVList
  env_vars : KVList
  deriving DecidableEq, Inhabited

/-- Rust `Validation::default()`: both maps empty. -/
def Validation.default : Validation := ⟨[], []⟩

/-- Rust `Validation::combine`: `self.tools.extend(other.tools);
self.env_vars.extend(other.env_vars);` — the Rust version mutates `self`; the
model returns the new value. -/
def Validation.combine (self other : Validation) : Validation :=
  { tools := hmExtend self.tools other.tools
    env_vars := btExtend self.env_vars other.env_vars }

/-- Representation well-formedness: `tools` is a duplicate-free association
list (hash-map contents), `env_vars` is strictly key-sorted (B-tree contents). -/
def Validation.WF (v : Validation) : Prop :=
  keysNodup v.tools ∧ keysSorted v.env_vars

instance (v : Validation) : Decidable v.WF := by unfold Validation.WF; infer_instance

/-- Decidable equality for `Except` results, so that concrete validation
outcomes can be checked by `decide`. -/
instance {e a : Type} [DecidableEq e] [DecidableEq a] : DecidableEq (Except e a) := fun x y =>
  match x, y with
  | .error e1, .error e2 =>
    if h : e1 = e2 then isTrue (by rw [h]) else isFalse (by intro hc; cases hc; exact h rfl)
  | .error _, .ok _ => isFalse (by intro hc; cases hc)
  | .ok _, .error _ => isFalse (by intro hc; cases hc)
  | .ok a1, .ok a2 =>
    if h : a1 = a2 then isTrue (by rw [h]) else isFalse (by intro hc; cases hc; exact h rfl)

/-! ## The system state: global environment, probe oracle, spawn trace -/

/-- Outcome of spawning one subprocess.  `ioErr notFound msg` is an OS-level
spawn failure (`notFound` tells whether it was `ErrorKind::NotFound`, `msg` the
error's display text); `ran success stdout` is a completed process with its
exit-status success flag and its captured stdout (`none` models stdout bytes
that are not valid UTF-8). -/
inductive ProbeResult where
  | ioErr (notFound : Bool) (msg : String)
  | ran (success : Bool) (stdout : Option String)
  deriving DecidableEq, Inhabited

/-- One spawned subprocess: program, arguments, and the environment-variable
overlay applied to it via `Command::env`. -/
structure SpawnRecord where
  prog : String
  args : List String
  env : KVList
  deriving DecidableEq, Inhabited

/-- The ambient system, as seen by validation: the process-global environment
(read-only in the source), the behaviour of subprocess probes, the build-target
flag and result of macOS search-path detection, the auxiliary-script fetcher,
and the trace of subprocesses spawned so far. -/
structure Sys where
  env : String → Option String
  probe : SpawnRecord → ProbeResult
  targetMacos : Bool
  detectMacos : Except String (List String)
  fetch : String → String → Except String Unit
  trace : List SpawnRecord

/-- Spawn a subprocess: ask the oracle, record the spawn. -/
def spawn (r : SpawnRecord) (s : Sys) : ProbeResult × Sys :=
  (s.probe r, { s with trace := s.trace ++ [r] })

/-! ## Configuration (`src/config/xtask.rs`) -/

/-- The `struct XtaskClang`: `matchers` maps a tool name to its (compiled) version
regex, modelled as the first-capture-group extraction function; `suffix` is the
binary-name suffix convention (e.g. `"-16"`); `version` the required version
prefix.  (The `platform.macos.search_paths` data feeds
`detect_macos_clang_paths`, which is abstracted into `Sys.detectMacos`.) -/
structure XtaskClang where
  matchers : String → Option (String → Option String)
  suffix : String
  version : String

/-- The `struct XtaskRustComponent`. -/
structure XtaskRustComponent where
  toolchain : String

/-- The `struct XtaskRust` (the `toolchain.nightly` field is read through
`crate::config::rust::toolchain`, see `Config`). -/
structure XtaskRust where
  components : String → Option XtaskRustComponent

/-- The slice of `Config` that validation reads.  The functions
`crate::config::rust::toolchain::nightly` and `::stable` live in a module not
present under `src/`; they produce toolchain-name strings from the
configuration and are modelled as the fields `nightly_toolchain` and
`stable_toolchain`. -/
structure Config where
  clang : XtaskClang
  rust : XtaskRust
  xtask_bin_dir : String
  nightly_toolchain : String
  stable_toolchain : String

/-! ## Search-path handling

`std::env::split_paths` / `join_paths` with the Unix `':'` separator, and the
`BTreeSet` used by `validate_clang_tool` to collect search-path entries. -/

/-- Split a character list on a separator character. -/
def splitOnChar (sep : Char) : List Char → List (List Char)
  | [] => [[]]
  | c :: t =>
    match splitOnChar sep t with
    | [] => [[c]]
    | h :: r => if c = sep then [] :: h :: r else (c :: h) :: r

/-- Rust `str::starts_with`: byte-level (here character-level) test that
`pre` is a prefix of `s`. -/
def strStartsWith (s pre : String) : Bool :=
  pre.data.isPrefixOf s.data

/-- Rust `std::env::split_paths` on Unix: split the path list on `':'`. -/
def splitPaths (p : String) : List String :=
  (splitOnChar ':' p.data).map (fun cs => String.mk cs)

/-- Insertion into a strictly sorted duplicate-free list:
`BTreeSet::insert`. -/
def setInsert : List String → String → List String
  | [], x => [x]
  | y :: t, x =>
    if strLtB x y then x :: y :: t
    else if x = y then y :: t
    else y :: setInsert t x

/-- Collecting into a `BTreeSet` and iterating it back out: the entries,
sorted and with duplicates removed. -/
def setOfList (l : List String) : List String := l.foldl setInsert []

/-- Rust `std::env::join_paths` on Unix: fails when an entry contains the
separator, otherwise joins with `':'`. -/
def joinPaths (l : List String) : Except String String :=
  if l.any (fun p => p.data.contains ':') then
    .error "path segment contains separator character"
  else
    .ok (String.intercalate ":" l)

/-- The search-path construction repeated in the second and fourth candidate
blocks of `validate_clang_tool`: read the ambient `PATH`, collect its entries
into a `BTreeSet`, on a macOS target extend the set with the detected extra
clang locations (propagating detection failure), and join the set back into a
single path-list string. -/
def clangSearchPath (s : Sys) : Except String String :=
  let paths :=
    match s.env "PATH" with
    | some p => setOfList (splitPaths p)
    | none => []
  match (if s.targetMacos then s.detectMacos else .ok []) with
  | .error e => .error e
  | .ok extra => joinPaths (extra.foldl setInsert paths)

/-! ## `try_validate_clang_tool` and `validate_clang_tool` -/

/-- Stand-in display text for a `FromUtf8Error` propagated by `?`. -/
def utf8ErrorMsg : String := "invalid utf-8 sequence"

/-- Source `try_validate_clang_tool`: probe one candidate binary (`--version` when a
matcher is configured, `--help` otherwise) under the candidate's environment
overlay, then validate the probe: non-zero exit fails; with a matcher, the
stdout must decode, the first capture group must match, and the captured
version must start with the configured version; the returned overlay carries
the candidate's `env_vars` and, when the invoked name differs from the logical
name, the name-remapping entry. -/
def try_validate_clang_tool (config : Config) (matcher : Option (String → Option String))
    (tool : String) (tool_elaborated : Option String) (env_vars : KVList) (s : Sys) :
    Except String Validation × Sys :=
  let te := tool_elaborated.getD tool
  let args := if matcher.isSome then ["--version"] else ["--help"]
  let (output, s1) := spawn ⟨te, args, env_vars⟩ s
  let res : Except String Validation :=
    match output with
    | .ioErr _ msg => .error msg
    | .ran success stdout =>
      if success then
        let validation : Validation :=
          { tools := if te ≠ tool then hmInsert [] tool te else []
            env_vars := env_vars }
        match matcher with
        | some m =>
          match stdout with
          | none => .error utf8ErrorMsg
          | some haystack =>
            match m haystack with
            | some version =>
              if strStartsWith version config.clang.version then .ok validation
              else
                .error ("`" ++ tool ++ "` failed validation; expected version compatible with `"
                  ++ config.clang.version ++ "` but found `" ++ version ++ "`")
            | none =>
              .error ("`" ++ tool ++ "` failed validation; ensure you are using the official clang toolchain")
        | none => .ok validation
      else .error ("`" ++ tool ++ "` failed with non-zero exit code")
  (res, s1)

/-- Source `validate_clang_tool`: resolve a version-sensitive clang-family tool by
trying, in order: the suffixed name with no extra environment, the suffixed
name with the collected search-path `PATH`, the unsuffixed name with no extra
environment, and the unsuffixed name with the collected search-path `PATH`,
returning the first success; when all four fail, report
`could not validate tool`.  A failure of the search-path construction itself
propagates immediately. -/
def validate_clang_tool (config : Config) (tool : String) (s : Sys) :
    Except String Validation × Sys :=
  let matcher := config.clang.matchers tool
  -- check `tool` with suffix
  let t1 := try_validate_clang_tool config matcher tool (some (tool ++ config.clang.suffix)) [] s
  match t1 with
  | (.ok validation, s1) => (.ok validation, s1)
  | (.error _, s1) =>
    -- check `tool` with suffix in search paths
    match clangSearchPath s1 with
    | .error e => (.error e, s1)
    | .ok path =>
      let t2 := try_validate_clang_tool config matcher tool (some (tool ++ config.clang.suffix))
        [("PATH", path)] s1
      match t2 with
      | (.ok validation, s2) => (.ok validation, s2)
      | (.error _, s2) =>
        -- check `tool` with no suffix
        let t3 := try_validate_clang_tool config matcher tool none [] s2
        match t3 with
        | (.ok validation, s3) => (.ok validation, s3)
        | (.error _, s3) =>
          -- check `tool` with no suffix in search paths
          match clangSearchPath s3 with
          | .error e => (.error e, s3)
          | .ok path2 =>
            let t4 := try_validate_clang_tool config matcher tool none [("PATH", path2)] s3
            match t4 with
            | (.ok validation, s4) => (.ok validation, s4)
            | (.error _, s4) => (.error ("could not validate tool: `" ++ tool ++ "`"), s4)

/-! ## The remaining validators -/

/-- Source `validate_cargo_component`: strip the `cargo-` name part, look the
component up in the configuration (mapping `doc` to `rustdoc`), and probe
`cargo +<toolchain> <component> --help`. -/
def validate_cargo_component (config : Config) (tool : String) (s : Sys) :
    Except String Unit × Sys :=
  let tool := if strStartsWith tool "cargo-" then String.mk (tool.data.drop 6) else tool
  let component_name := if tool = "doc" then "rustdoc" else tool
  match config.rust.components component_name with
  | some value =>
    let toolchain :=
      if value.toolchain = "nightly" then config.nightly_toolchain else config.stable_toolchain
    let (status, s1) := spawn ⟨"cargo", ["+" ++ toolchain, tool, "--help"], []⟩ s
    let res : Except String Unit :=
      match status with
      | .ioErr _ msg => .error msg
      | .ran success _ =>
        if success then .ok ()
        else .error ("`cargo +" ++ toolchain ++ " " ++ tool ++ " --help` failed with non-zero exit code")
    (res, s1)
  | none => (.error ("unrecognized component: `" ++ tool ++ "`"), s)

/-- Source `validate_cargo_tool`: probe `<tool> --help`, mapping a not-found spawn
error to a search-path hint. -/
def validate_cargo_tool (tool : String) (s : Sys) : Except String Unit × Sys :=
  let (status, s1) := spawn ⟨tool, ["--help"], []⟩ s
  let res : Except String Unit :=
    match status with
    | .ioErr notFound msg =>
      if notFound then .error ("could not find `" ++ tool ++ "` in path") else .error msg
    | .ran success _ =>
      if success then .ok ()
      else .error ("`" ++ tool ++ "` failed with non-zero exit code")
  (res, s1)

/-- Source `validate_other_tool`: probe the tool (`--version` for `ninja`, `--help`
otherwise) under the given environment variables; on success the returned
overlay is `Validation::default()`. -/
def validate_other_tool (tool : String) (env_vars : KVList) (s : Sys) :
    Except String Validation × Sys :=
  let args := if tool = "ninja" then ["--version"] else ["--help"]
  let (status, s1) := spawn ⟨tool, args, env_vars⟩ s
  let res : Except String Validation :=
    match status with
    | .ioErr notFound msg =>
      if notFound then .error ("could not find `" ++ tool ++ "` in path") else .error msg
    | .ran success _ =>
      if success then .ok Validation.default
      else .error ("`" ++ tool ++ "` failed with non-zero exit code")
  (res, s1)

/-- Source `validate_python3`: probe `python3 --help`. -/
def validate_python3 (s : Sys) : Except String Unit × Sys :=
  let (status, s1) := spawn ⟨"python3", ["--help"], []⟩ s
  let res : Except String Unit :=
    match status with
    | .ioErr notFound msg =>
      if notFound then .error ("could not find `python3` in path") else .error msg
    | .ran success _ =>
      if success then .ok ()
      else .error ("`python3` failed with non-zero exit code")
  (res, s1)

/-- Source `validate_xtask_bin`: check that the helper script runs under `python3`;
when it does not, fetch it (`crate::install::fetch_xtask_bin`, modelled by
`Sys.fetch`) and, when `retry` is set, re-validate once with `retry` cleared. -/
def validate_xtask_bin (config : Config) (tool : String) (retry : Bool) (s : Sys) :
    Except String Unit × Sys :=
  match tool with
  | "run-clang-format.py" =>
    let path := config.xtask_bin_dir ++ "/" ++ tool
    let (status, s1) := spawn ⟨"python3", [path, "--help"], []⟩ s
    match status with
    | .ioErr _ msg => (.error msg, s1)
    | .ran success _ =>
      if success then (.ok (), s1)
      else
        let url := "https://raw.githubusercontent.com/Sarcasm/run-clang-format/master/run-clang-format.py"
        match s1.fetch url tool with
        | .error e => (.error e, s1)
        | .ok () =>
          if retry then validate_xtask_bin config tool false s1 else (.ok (), s1)
  | _ => (.error ("unrecognized xtask bin `" ++ tool ++ "`"), s)
termination_by (if retry then 1 else 0)
decreasing_by simp_all

/-- Source `validate_tool`: dispatch on the logical tool name, combining the overlays
of the validators each recognized tool requires; an unrecognized name is a
hard failure. -/
def validate_tool (config : Config) (tool : String) (s : Sys) :
    Except String Validation × Sys :=
  let validation := Validation.default
  match tool with
  | "clang" =>
    match validate_clang_tool config tool s with
    | (.ok v, s1) => (.ok (validation.combine v), s1)
    | (.error e, s1) => (.error e, s1)
  | "clang++" =>
    match validate_clang_tool config tool s with
    | (.ok v, s1) => (.ok (validation.combine v), s1)
    | (.error e, s1) => (.error e, s1)
  | "clangd" =>
    match validate_clang_tool config tool s with
    | (.ok v, s1) => (.ok (validation.combine v), s1)
    | (.error e, s1) => (.error e, s1)
  | "clang-format" =>
    match validate_clang_tool config tool s with
    | (.error e, s1) => (.error e, s1)
    | (.ok v, s1) =>
      let validation := validation.combine v
      match validate_python3 s1 with
      | (.error e, s2) => (.error e, s2)
      | (.ok (), s2) =>
        match validate_xtask_bin config "run-clang-format.py" true s2 with
        | (.error e, s3) => (.error e, s3)
        | (.ok (), s3) => (.ok validation, s3)
  | "clang-tidy" =>
    match validate_clang_tool config tool s with
    | (.error e, s1) => (.error e, s1)
    | (.ok v, s1) =>
      let validation := validation.combine v
      match validate_clang_tool config "run-clang-tidy" s1 with
      | (.error e, s2) => (.error e, s2)
      | (.ok v2, s2) => (.ok (validation.combine v2), s2)
  | "cargo-clippy" =>
    match validate_cargo_component config tool s with
    | (.error e, s1) => (.error e, s1)
    | (.ok (), s1) => (.ok validation, s1)
  | "cargo-fmt" =>
    match validate_cargo_component config tool s with
    | (.error e, s1) => (.error e, s1)
    | (.ok (), s1) => (.ok validation, s1)
  | "cargo-miri" =>
    match validate_cargo_component config tool s with
    | (.error e, s1) => (.error e, s1)
    | (.ok (), s1) => (.ok validation, s1)
  | "cargo-tarpaulin" =>
    match validate_cargo_tool tool s with
    | (.error e, s1) => (.error e, s1)
    | (.ok (), s1) => (.ok validation, s1)
  | "cargo-udeps" =>
    match validate_cargo_tool tool s with
    | (.error e, s1) => (.error e, s1)
    | (.ok (), s1) => (.ok validation, s1)
  | "cargo-valgrind" =>
    match validate_cargo_tool tool s with
    | (.error e, s1) => (.error e, s1)
    | (.ok (), s1) => (.ok validation, s1)
  | "cmake" =>
    match validate_other_tool tool validation.env_vars s with
    | (.error e, s1) => (.error e, s1)
    | (.ok _, s1) => (.ok validation, s1)
  | "ninja" =>
    match validate_other_tool tool validation.env_vars s with
    | (.error e, s1) => (.error e, s1)
    | (.ok _, s1) => (.ok validation, s1)
  | _ => (.error ("unrecognized tool: `" ++ tool ++ "`"), s)

/-- Rust `str::lines`: split on `'\n'`, dropping a final empty segment (a
trailing newline produces no extra line) and stripping a trailing `'\r'` from
each line. -/
def rustLines (s : String) : List String :=
  let parts := splitOnChar (Char.ofNat 10) s.data
  let parts := if parts.getLast? = some [] then parts.dropLast else parts
  parts.map (fun cs =>
    String.mk (if cs.getLast? = some (Char.ofNat 13) then cs.dropLast else cs))

/-- Source `validate_rust_toolchain`: run `rustup toolchain list` and succeed exactly
when some listed line starts with the requested toolchain, otherwise fail with
the install suggestion naming the toolchain. -/
def validate_rust_toolchain (toolchain : String) (s : Sys) : Except String Unit × Sys :=
  let (output, s1) := spawn ⟨"rustup", ["toolchain", "list"], []⟩ s
  let res : Except String Unit :=
    match output with
    | .ioErr _ msg => .error msg
    | .ran success stdout =>
      if success then
        match stdout with
        | none => .error utf8ErrorMsg
        | some out =>
          if (rustLines out).any (fun entry => strStartsWith entry toolchain) then .ok ()
          else
            .error ("could not find toolchain `" ++ toolchain
              ++ "`\nPerhaps you need to install it with `rustup install toolchain " ++ toolchain ++ "`?")
      else .error "`rustup toolchain list` failed with non-zero exit code"
  (res, s1)

/-! ## Spec-side resolution order

The spec describes clang-tool resolution as a single ordered candidate list,
tried first-to-last with fall-through on failure.  The following definitions
follow the spec's words; the refinement theorem for the resolution-order claim
compares them with `validate_clang_tool` above, which follows the source. -/

/-- Modelled from the spec: the environment of one candidate — either no extra
environment, or `PATH` extended by the platform fallback search locations. -/
def candidateEnv (extended : Bool) (s : Sys) : Except String KVList :=
  if extended then
    match clangSearchPath s with
    | .error e => .error e
    | .ok path => .ok [("PATH", path)]
  else .ok []

/-- Modelled from the spec: the four candidates for a version-sensitive tool,
in priority order — suffixed name with no extra environment, suffixed name
with extended `PATH`, unsuffixed name with no extra environment, unsuffixed
name with extended `PATH`. -/
def clangCandidates (config : Config) (tool : String) : List (Option String × Bool) :=
  [(some (tool ++ config.clang.suffix), false),
   (some (tool ++ config.clang.suffix), true),
   (none, false),
   (none, true)]

/-- Modelled from the spec: try the candidates in order, stopping at the first
success; a failure of candidate-environment construction aborts; when every
candidate fails, report `could not validate tool`. -/
def runCandidates (config : Config) (matcher : Option (String → Option String))
    (tool : String) : List (Option String × Bool) → Sys → Except String Validation × Sys
  | [], s => (.error ("could not validate tool: `" ++ tool ++ "`"), s)
  | (name, ext) :: rest, s =>
    match candidateEnv ext s with
    | .error e => (.error e, s)
    | .ok env =>
      match try_validate_clang_tool config matcher tool name env s with
      | (.ok v, s1) => (.ok v, s1)
      | (.error _, s1) => runCandidates config matcher tool rest s1

/-! ## Concrete fixtures for witnesses and counterexamples -/

/-- A concrete version-extraction function, as the compiled matcher
`clang version (\d+\.\d+\.\d+)` behaves on the outputs used below. -/
def testExtract (out : String) : Option String :=
  if out = "clang version 16.0.3\n" then some "16.0.3"
  else if out = "clang version 15.9.0\n" then some "15.9.0"
  else none

/-- A concrete configuration: a matcher for `clang`, suffix `-16`, required
version `16`. -/
def testConfig : Config :=
  { clang :=
      { matchers := fun t => if t = "clang" then some testExtract else none
        suffix := "-16"
        version := "16" }
    rust := { components := fun t => if t = "clippy" then some ⟨"nightly"⟩ else none }
    xtask_bin_dir := "/home/user/project/xtask/bin"
    nightly_toolchain := "nightly-2024-01-01"
    stable_toolchain := "stable" }

/-- A concrete system with a given probe behaviour: ambient
`PATH=/usr/bin:/bin`, non-macOS target, no spawns yet. -/
def testSys (probe : SpawnRecord → ProbeResult) : Sys :=
  { env := fun k => if k = "PATH" then some "/usr/bin:/bin" else none
    probe := probe
    targetMacos := false
    detectMacos := .ok []
    fetch := fun _ _ => .ok ()
    trace := [] }

/-- A probe behaviour where both the suffixed `clang-16` and the unsuffixed
`clang` binaries exist and report an acceptable version. -/
def probeBothClang : SpawnRecord → ProbeResult := fun r =>
  if r.prog = "clang-16" then .ran true (some "clang version 16.0.3\n")
  else if r.prog = "clang" then .ran true (some "clang version 16.0.3\n")
  else .ioErr true "No such file or directory (os error 2)"

/-- The relation between the system before and after a validation call: the
only effect is that some subprocess spawns were appended to the trace; every
other component — in particular the process-global environment — is unchanged. -/
def sysEvolves (s s1 : Sys) : Prop :=
  ∃ t, s1 = { s with trace := s.trace ++ t }

/-- The thirteen logical tool names `validate_tool` recognizes. -/
def recognizedTools : List String :=
  ["clang", "clang++", "clangd", "clang-format", "clang-tidy",
   "cargo-clippy", "cargo-fmt", "cargo-miri", "cargo-tarpaulin",
   "cargo-udeps", "cargo-valgrind", "cmake", "ninja"]

/-- The recognized tools outside the clang family. -/
def nonClangTools : List String :=
  ["cargo-clippy", "cargo-fmt", "cargo-miri", "cargo-tarpaulin",
   "cargo-udeps", "cargo-valgrind", "cmake", "ninja"]

/-- A probe behaviour where every binary runs successfully and reports
version 16.0.3. -/
def probeSuccess : SpawnRecord → ProbeResult := fun _ =>
  .ran true (some "clang version 16.0.3\n")

/-- A probe behaviour where every binary runs successfully but reports
version 15.9.0. -/
def probeWrongVersion : SpawnRecord → ProbeResult := fun _ =>
  .ran true (some "clang version 15.9.0\n")

/-- A probe behaviour for a `rustup toolchain list` with only a stable
toolchain installed. -/
def probeRustupStableOnly : SpawnRecord → ProbeResult := fun _ =>
  .ran true (some "stable-x86_64-unknown-linux-gnu (default)\n")

/-- A system whose ambient `PATH` is `/b:/a` (not sorted), on a non-macOS
target, with no binaries present. -/
def sysPathBA : Sys :=
  { env := fun k => if k = "PATH" then some "/b:/a" else none
    probe := fun _ => .ioErr true "No such file or directory (os error 2)"
    targetMacos := false
    detectMacos := .ok []
    fetch := fun _ _ => .ok ()
    trace := [] }

/-- Extract the overlay from a validation result (`default` on error). -/
def okOr (r : Except String Validation) : Validation :=
  match r with
  | .ok v => v
  | .error _ => Validation.default

/-- A caller combining the overlays of two validated tools, the way the
command layer combines validations (`validate_tool` itself does the same for
`clang-tidy`): here `clangd` resolved before `clang`. -/
def combinedOverlay : Validation :=
  (okOr (validate_tool testConfig "clangd" (testSys probeSuccess)).1).combine
    (okOr (validate_tool testConfig "clang" (testSys probeSuccess)).1)

/-! ## Lemmas about the map models -/

theorem charListLtB_irrefl : ∀ l : List Char, charListLtB l l = false := by
  intro l
  induction l with
  | nil => rfl
  | cons a as ih => simp [charListLtB, ih]

theorem strLtB_irrefl (a : String) : strLtB a a = false := charListLtB_irrefl a.data

theorem charListLtB_trans : ∀ {x y z : List Char},
    charListLtB x y = true → charListLtB y z = true → charListLtB x z = true := by
  intro x
  induction x with
  | nil =>
    intro y z hxy hyz
    cases y with
    | nil => simp [charListLtB] at hxy
    | cons b bs =>
      cases z with
      | nil => simp [charListLtB] at hyz
      | cons c cs => rfl
  | cons a as ih =>
    intro y z hxy hyz
    cases y with
    | nil => simp [charListLtB] at hxy
    | cons b bs =>
      cases z with
      | nil => simp [charListLtB] at hyz
      | cons c cs =>
        simp only [charListLtB] at hxy hyz ⊢
        by_cases hab : a.toNat < b.toNat
        · by_cases hbc : b.toNat < c.toNat
          · simp [show a.toNat < c.toNat by omega]
          · by_cases hcb : c.toNat < b.toNat
            · simp [hbc, hcb] at hyz
            · simp [show a.toNat < c.toNat by omega]
        · by_cases hba : b.toNat < a.toNat
          · simp [hab, hba] at hxy
          · simp only [if_neg hab, if_neg hba] at hxy
            by_cases hbc : b.toNat < c.toNat
            · simp [show a.toNat < c.toNat by omega]
            · by_cases hcb : c.toNat < b.toNat
              · simp [hbc, hcb] at hyz
              · simp only [if_neg hbc, if_neg hcb] at hyz
                simp [show ¬a.toNat < c.toNat by omega, show ¬c.toNat < a.toNat by omega,
                  ih hxy hyz]

theorem charListLtB_asymm {x y : List Char} (h : charListLtB x y = true) :
    charListLtB y x = false := by
  cases hc : charListLtB y x with
  | false => rfl
  | true =>
    have hxx := charListLtB_trans h hc
    rw [charListLtB_irrefl] at hxx
    exact Bool.noConfusion hxx

theorem charListLtB_trichotomy (x : List Char) : ∀ y : List Char,
    charListLtB x y = true ∨ x = y ∨ charListLtB y x = true := by
  induction x with
  | nil =>
    intro y
    cases y with
    | nil => exact Or.inr (Or.inl rfl)
    | cons b bs => exact Or.inl rfl
  | cons a as ih =>
    intro y
    cases y with
    | nil => exact Or.inr (Or.inr rfl)
    | cons b bs =>
      by_cases hab : a.toNat < b.toNat
      · exact Or.inl (by simp [charListLtB, hab])
      · by_cases hba : b.toNat < a.toNat
        · exact Or.inr (Or.inr (by simp [charListLtB, hba]))
        · have hv : a.val.toNat = b.val.toNat := by
            have : a.toNat = b.toNat := by omega
            exact this
          have hch : a = b := Char.ext (UInt32.toNat.inj hv)
          rcases ih bs with h | h | h
          · exact Or.inl (by simp [charListLtB, hab, hba, h])
          · exact Or.inr (Or.inl (by rw [hch, h]))
          · exact Or.inr (Or.inr (by simp [charListLtB, hab, hba, h]))

theorem strLtB_trans {x y z : String} (h1 : strLtB x y = true) (h2 : strLtB y z = true) :
    strLtB x z = true := charListLtB_trans h1 h2

theorem strLtB_asymm {x y : String} (h : strLtB x y = true) : strLtB y x = false :=
  charListLtB_asymm h

theorem strLtB_ne {x y : String} (h : strLtB x y = true) : x ≠ y := by
  intro he
  subst he
  rw [strLtB_irrefl] at h
  exact Bool.noConfusion h

theorem strLtB_trichotomy (x y : String) :
    strLtB x y = true ∨ x = y ∨ strLtB y x = true := by
  rcases charListLtB_trichotomy x.data y.data with h | h | h
  · exact Or.inl h
  · refine Or.inr (Or.inl ?_)
    cases x
    cases y
    exact congrArg String.mk h
  · exact Or.inr (Or.inr h)

theorem strLtB_of_true_eq_false {k : String} (h : strLtB k k = true) : False := by
  rw [strLtB_irrefl] at h
  exact Bool.noConfusion h

theorem keysKV_cons (a b : String) (t : KVList) : keysKV ((a, b) :: t) = a :: keysKV t := rfl

theorem mem_keysKV_cons {k a b : String} {t : KVList} :
    k ∈ keysKV ((a, b) :: t) ↔ k = a ∨ k ∈ keysKV t := by
  rw [keysKV_cons]
  exact List.mem_cons

theorem keysNodup_cons {a b : String} {t : KVList} :
    keysNodup ((a, b) :: t) ↔ a ∉ keysKV t ∧ keysNodup t := by
  unfold keysNodup
  rw [keysKV_cons]
  exact List.nodup_cons

theorem keysSorted_cons {a b : String} {t : KVList} :
    keysSorted ((a, b) :: t) ↔ (∀ x ∈ keysKV t, strLtB a x = true) ∧ keysSorted t := by
  unfold keysSorted
  rw [keysKV_cons]
  exact List.pairwise_cons

theorem keysNodup_of_keysSorted {l : KVList} (h : keysSorted l) : keysNodup l :=
  List.Pairwise.imp (fun hlt => strLtB_ne hlt) h

theorem lookupKV_eq_none {l : KVList} {k : String} :
    lookupKV l k = none ↔ k ∉ keysKV l := by
  induction l with
  | nil => simp [lookupKV, keysKV]
  | cons p t ih =>
    obtain ⟨a, b⟩ := p
    rw [mem_keysKV_cons]
    by_cases h : k = a
    · simp [lookupKV, h]
    · simp [lookupKV, h, ih]

theorem mem_keysKV_of_lookupKV {l : KVList} {k : String} {v : String}
    (h : lookupKV l k = some v) : k ∈ keysKV l := by
  by_contra hk
  rw [← lookupKV_eq_none] at hk
  simp [hk] at h

theorem lookupKV_hmInsert (l : KVList) (a b k : String) :
    lookupKV (hmInsert l a b) k = if k = a then some b else lookupKV l k := by
  induction l with
  | nil => simp [hmInsert, lookupKV]
  | cons p t ih =>
    obtain ⟨c, d⟩ := p
    by_cases hac : a = c
    · subst hac
      by_cases hka : k = a <;> simp [hmInsert, lookupKV, hka]
    · by_cases hkc : k = c
      · subst hkc
        have hka : ¬k = a := fun h => hac h.symm
        simp [hmInsert, hac, lookupKV, hka]
      · simp [hmInsert, hac, lookupKV, hkc, ih]

theorem mem_keysKV_hmInsert {l : KVList} {a k : String} (b : String) :
    k ∈ keysKV (hmInsert l a b) ↔ k = a ∨ k ∈ keysKV l := by
  induction l with
  | nil => simp [hmInsert, keysKV]
  | cons p t ih =>
    obtain ⟨c, d⟩ := p
    by_cases hac : a = c
    · subst hac
      rw [show hmInsert ((a, d) :: t) a b = (a, b) :: t by simp [hmInsert]]
      rw [mem_keysKV_cons, mem_keysKV_cons]
      tauto
    · rw [show hmInsert ((c, d) :: t) a b = (c, d) :: hmInsert t a b by simp [hmInsert, hac]]
      rw [mem_keysKV_cons, ih, mem_keysKV_cons]
      tauto

theorem keysNodup_hmInsert {l : KVList} (h : keysNodup l) (a b : String) :
    keysNodup (hmInsert l a b) := by
  induction l with
  | nil => simp [hmInsert, keysNodup, keysKV]
  | cons p t ih =>
    obtain ⟨c, d⟩ := p
    rw [keysNodup_cons] at h
    by_cases hac : a = c
    · subst hac
      rw [show hmInsert ((a, d) :: t) a b = (a, b) :: t by simp [hmInsert]]
      rw [keysNodup_cons]
      exact h
    · rw [show hmInsert ((c, d) :: t) a b = (c, d) :: hmInsert t a b by simp [hmInsert, hac]]
      rw [keysNodup_cons]
      refine ⟨fun hm => ?_, ih h.2⟩
      rcases (mem_keysKV_hmInsert b).mp hm with h1 | h1
      · exact hac h1.symm
      · exact h.1 h1

theorem hmInsert_same (l : KVList) (k v' v : String) :
    hmInsert (hmInsert l k v') k v = hmInsert l k v := by
  induction l with
  | nil => simp [hmInsert]
  | cons p t ih =>
    obtain ⟨c, d⟩ := p
    by_cases h : k = c
    · simp [hmInsert, h]
    · simp [hmInsert, h, ih]

theorem hmInsert_comm {l : KVList} {k k2 : String} (hmem : k ∈ keysKV l)
    (hne : k2 ≠ k) (v v2 : String) :
    hmInsert (hmInsert l k v) k2 v2 = hmInsert (hmInsert l k2 v2) k v := by
  induction l with
  | nil => simp [keysKV] at hmem
  | cons p t ih =>
    obtain ⟨c, d⟩ := p
    by_cases hkc : k = c
    · subst hkc
      have h2k : ¬k2 = k := hne
      simp [hmInsert, h2k]
    · rw [mem_keysKV_cons] at hmem
      rcases hmem with h1 | h1
      · exact absurd h1 hkc
      · by_cases hk2c : k2 = c
        · subst hk2c
          have hkk2 : ¬k = k2 := fun h => hne h.symm
          simp [hmInsert, hkc, hkk2]
        · simp [hmInsert, hkc, hk2c, ih h1]

theorem hmExtend_nil (m : KVList) : hmExtend m [] = m := rfl

theorem hmExtend_cons (m : KVList) (a b : String) (t : KVList) :
    hmExtend m ((a, b) :: t) = hmExtend (hmInsert m a b) t := rfl

theorem hmInsert_hmExtend {m t : KVList} {k : String} (hk : k ∈ keysKV m)
    (hnt : k ∉ keysKV t) (v : String) :
    hmInsert (hmExtend m t) k v = hmExtend (hmInsert m k v) t := by
  induction t generalizing m with
  | nil => simp [hmExtend_nil]
  | cons p t ih =>
    obtain ⟨a, b⟩ := p
    rw [mem_keysKV_cons] at hnt
    push_neg at hnt
    rw [hmExtend_cons, hmExtend_cons,
      ih ((mem_keysKV_hmInsert b).mpr (Or.inr hk)) hnt.2,
      hmInsert_comm hk (fun h => hnt.1 h.symm)]

theorem hmExtend_hmInsert {x y : KVList} (hy : keysNodup y) (k v : String) :
    hmExtend x (hmInsert y k v) = hmInsert (hmExtend x y) k v := by
  induction y generalizing x with
  | nil => simp [hmInsert, hmExtend_cons, hmExtend_nil]
  | cons p t ih =>
    obtain ⟨a, b⟩ := p
    rw [keysNodup_cons] at hy
    by_cases hka : k = a
    · subst hka
      rw [show hmInsert ((k, b) :: t) k v = (k, v) :: t by simp [hmInsert],
        hmExtend_cons, hmExtend_cons,
        hmInsert_hmExtend ((mem_keysKV_hmInsert b).mpr (Or.inl rfl)) hy.1,
        hmInsert_same]
    · rw [show hmInsert ((a, b) :: t) k v = (a, b) :: hmInsert t k v by simp [hmInsert, hka],
        hmExtend_cons, hmExtend_cons, ih hy.2]

theorem hmExtend_assoc {x y : KVList} (z : KVList) (hy : keysNodup y) :
    hmExtend (hmExtend x y) z = hmExtend x (hmExtend y z) := by
  induction z generalizing y with
  | nil => simp [hmExtend_nil]
  | cons p t ih =>
    obtain ⟨a, b⟩ := p
    rw [hmExtend_cons, hmExtend_cons, ← hmExtend_hmInsert hy,
      ih (keysNodup_hmInsert hy a b)]

theorem lookupKV_btInsert (l : KVList) (a b k : String) :
    lookupKV (btInsert l a b) k = if k = a then some b else lookupKV l k := by
  induction l with
  | nil => simp [btInsert, lookupKV]
  | cons p t ih =>
    obtain ⟨c, d⟩ := p
    rcases strLtB_trichotomy a c with hlt | heq | hgt
    · rw [show btInsert ((c, d) :: t) a b = (a, b) :: (c, d) :: t by simp [btInsert, hlt]]
      by_cases hka : k = a <;> simp [lookupKV, hka]
    · subst heq
      rw [show btInsert ((a, d) :: t) a b = (a, b) :: t by simp [btInsert, strLtB_irrefl]]
      by_cases hka : k = a <;> simp [lookupKV, hka]
    · have hne : ¬a = c := fun h => strLtB_ne hgt h.symm
      rw [show btInsert ((c, d) :: t) a b = (c, d) :: btInsert t a b by
        simp [btInsert, strLtB_asymm hgt, hne]]
      by_cases hkc : k = c
      · subst hkc
        have hka : ¬k = a := fun h => hne (h.symm)
        simp [lookupKV, hka]
      · simp [lookupKV, hkc, ih]

theorem mem_keysKV_btInsert {l : KVList} {a k : String} (b : String) :
    k ∈ keysKV (btInsert l a b) ↔ k = a ∨ k ∈ keysKV l := by
  induction l with
  | nil => simp [btInsert, keysKV]
  | cons p t ih =>
    obtain ⟨c, d⟩ := p
    rcases strLtB_trichotomy a c with hlt | heq | hgt
    · rw [show btInsert ((c, d) :: t) a b = (a, b) :: (c, d) :: t by simp [btInsert, hlt]]
      rw [mem_keysKV_cons, mem_keysKV_cons]
    · subst heq
      rw [show btInsert ((a, d) :: t) a b = (a, b) :: t by simp [btInsert, strLtB_irrefl]]
      rw [mem_keysKV_cons, mem_keysKV_cons]
      tauto
    · have hne : ¬a = c := fun h => strLtB_ne hgt h.symm
      rw [show btInsert ((c, d) :: t) a b = (c, d) :: btInsert t a b by
        simp [btInsert, strLtB_asymm hgt, hne]]
      rw [mem_keysKV_cons, ih, mem_keysKV_cons]
      tauto

theorem keysSorted_btInsert {l : KVList} (h : keysSorted l) (a b : String) :
    keysSorted (btInsert l a b) := by
  induction l with
  | nil => simp [btInsert, keysSorted, keysKV]
  | cons p t ih =>
    obtain ⟨c, d⟩ := p
    rw [keysSorted_cons] at h
    rcases strLtB_trichotomy a c with hlt | heq | hgt
    · rw [show btInsert ((c, d) :: t) a b = (a, b) :: (c, d) :: t by simp [btInsert, hlt]]
      rw [keysSorted_cons]
      refine ⟨?_, ?_⟩
      · intro x hx
        rw [mem_keysKV_cons] at hx
        rcases hx with hx | hx
        · exact hx ▸ hlt
        · exact strLtB_trans hlt (h.1 x hx)
      · rw [keysSorted_cons]; exact h
    · subst heq
      rw [show btInsert ((a, d) :: t) a b = (a, b) :: t by simp [btInsert, strLtB_irrefl]]
      rw [keysSorted_cons]
      exact h
    · have hne : ¬a = c := fun hh => strLtB_ne hgt hh.symm
      rw [show btInsert ((c, d) :: t) a b = (c, d) :: btInsert t a b by
        simp [btInsert, strLtB_asymm hgt, hne]]
      rw [keysSorted_cons]
      refine ⟨?_, ih h.2⟩
      intro x hx
      rcases (mem_keysKV_btInsert b).mp hx with hx | hx
      · exact hx ▸ hgt
      · exact h.1 x hx

theorem btExtend_nil (m : KVList) : btExtend m [] = m := rfl

theorem btExtend_cons (m : KVList) (a b : String) (t : KVList) :
    btExtend m ((a, b) :: t) = btExtend (btInsert m a b) t := rfl

theorem keysSorted_btExtend {x : KVList} (y : KVList) (hx : keysSorted x) :
    keysSorted (btExtend x y) := by
  induction y generalizing x with
  | nil => exact hx
  | cons p t ih =>
    obtain ⟨a, b⟩ := p
    rw [btExtend_cons]
    exact ih (keysSorted_btInsert hx a b)

theorem lookupKV_foldIns (ins : KVList → String → String → KVList)
    (law : ∀ l a b k, lookupKV (ins l a b) k = if k = a then some b else lookupKV l k)
    {y : KVList} (x : KVList) (hy : keysNodup y) (k : String) :
    lookupKV (y.foldl (fun acc kv => ins acc kv.1 kv.2) x) k =
      if (lookupKV y k).isSome then lookupKV y k else lookupKV x k := by
  induction y generalizing x with
  | nil => simp [lookupKV]
  | cons p t ih =>
    obtain ⟨a, b⟩ := p
    rw [keysNodup_cons] at hy
    rw [List.foldl_cons, ih (ins x a b) hy.2]
    by_cases hka : k = a
    · subst hka
      simp [lookupKV, lookupKV_eq_none.mpr hy.1, law]
    · simp [lookupKV, hka, law]

theorem lookupKV_hmExtend {x y : KVList} (hy : keysNodup y) (k : String) :
    lookupKV (hmExtend x y) k =
      if (lookupKV y k).isSome then lookupKV y k else lookupKV x k :=
  lookupKV_foldIns hmInsert lookupKV_hmInsert x hy k

theorem lookupKV_btExtend {x y : KVList} (hy : keysNodup y) (k : String) :
    lookupKV (btExtend x y) k =
      if (lookupKV y k).isSome then lookupKV y k else lookupKV x k :=
  lookupKV_foldIns btInsert lookupKV_btInsert x hy k

theorem eq_of_keysSorted_lookupKV {l l' : KVList} (hl : keysSorted l)
    (hl' : keysSorted l') (h : ∀ k, lookupKV l k = lookupKV l' k) : l = l' := by
  induction l generalizing l' with
  | nil =>
    cases l' with
    | nil => rfl
    | cons q u =>
      obtain ⟨c, d⟩ := q
      have hc := h c
      simp [lookupKV] at hc
  | cons p t ih =>
    obtain ⟨a, b⟩ := p
    cases l' with
    | nil =>
      have ha := h a
      simp [lookupKV] at ha
    | cons q u =>
      obtain ⟨c, d⟩ := q
      rw [keysSorted_cons] at hl hl'
      have hla : lookupKV ((a, b) :: t) a = some b := by simp [lookupKV]
      have hlc : lookupKV ((c, d) :: u) c = some d := by simp [lookupKV]
      have hac : a = c := by
        have h1 : a ∈ keysKV ((c, d) :: u) := mem_keysKV_of_lookupKV ((h a).symm.trans hla)
        have h2 : c ∈ keysKV ((a, b) :: t) := mem_keysKV_of_lookupKV ((h c).trans hlc)
        rw [mem_keysKV_cons] at h1 h2
        rcases h1 with h1 | h1
        · exact h1
        · rcases h2 with h2 | h2
          · exact h2.symm
          · have hax := hl.1 c h2
            rw [strLtB_asymm (hl'.1 a h1)] at hax
            exact Bool.noConfusion hax
      subst hac
      have hbd : b = d := by
        have hh := h a
        rw [hla, hlc] at hh
        exact Option.some.inj hh
      subst hbd
      have htu : ∀ k, lookupKV t k = lookupKV u k := by
        intro k
        by_cases hka : k = a
        · subst hka
          rw [lookupKV_eq_none.mpr (fun hm => strLtB_of_true_eq_false (hl.1 k hm)),
            lookupKV_eq_none.mpr (fun hm => strLtB_of_true_eq_false (hl'.1 k hm))]
        · have hh := h k
          simpa [lookupKV, hka] using hh
      rw [ih hl.2 hl'.2 htu]

theorem btExtend_assoc {x y z : KVList} (hx : keysSorted x) (hy : keysSorted y)
    (hz : keysNodup z) :
    btExtend (btExtend x y) z = btExtend x (btExtend y z) := by
  apply eq_of_keysSorted_lookupKV (keysSorted_btExtend _ (keysSorted_btExtend _ hx))
    (keysSorted_btExtend _ hx)
  intro k
  rw [lookupKV_btExtend hz,
    lookupKV_btExtend (keysNodup_of_keysSorted (keysSorted_btExtend _ hy)),
    lookupKV_btExtend (keysNodup_of_keysSorted hy), lookupKV_btExtend hz]
  rcases hzz : lookupKV z k with _ | v <;> simp [hzz]

theorem keysSorted_nil : keysSorted ([] : KVList) := List.Pairwise.nil

/-! ## The claims -/

/-- C4: `Validation::combine` is a key-wise union over both the name-remapping
(`tools`) and the variable (`env_vars`) mapping in which the later operand's
value wins for every shared key (right-biased, last-writer-wins); combining
`(A:1, B:2)` with `(B:3, C:4)` yields `(A:1, B:3, C:4)` on both mappings;
and combine is associative: `(x.combine y).combine z = x.combine (y.combine z)`. -/
theorem claim_C4 (x y z : Validation) (hx : x.WF) (hy : y.WF) (hz : z.WF) :
    (∀ k,
      lookupKV (x.combine y).tools k =
        (if (lookupKV y.tools k).isSome then lookupKV y.tools k else lookupKV x.tools k) ∧
      lookupKV (x.combine y).env_vars k =
        (if (lookupKV y.env_vars k).isSome then lookupKV y.env_vars k
         else lookupKV x.env_vars k)) ∧
    Validation.combine ⟨[("A", "1"), ("B", "2")], [("A", "1"), ("B", "2")]⟩
        ⟨[("B", "3"), ("C", "4")], [("B", "3"), ("C", "4")]⟩ =
      ⟨[("A", "1"), ("B", "3"), ("C", "4")], [("A", "1"), ("B", "3"), ("C", "4")]⟩ ∧
    (x.combine y).combine z = x.combine (y.combine z) := by
  refine ⟨fun k => ⟨lookupKV_hmExtend hy.1 k,
    lookupKV_btExtend (keysNodup_of_keysSorted hy.2) k⟩, by decide, ?_⟩
  show Validation.mk _ _ = Validation.mk _ _
  congr 1
  · exact hmExtend_assoc z.tools hy.1
  · exact btExtend_assoc hx.2 hy.2 (keysNodup_of_keysSorted hz.2)

/-- Witness for C4 at concrete overlays. -/
theorem claim_C4_witness :
    (Validation.WF ⟨[("A", "1"), ("B", "2")], [("A", "1"), ("B", "2")]⟩) ∧
    (Validation.WF ⟨[("B", "3"), ("C", "4")], [("B", "3"), ("C", "4")]⟩) ∧
    (Validation.WF ⟨[("C", "5")], [("C", "5")]⟩) ∧
    ((Validation.mk [("A", "1"), ("B", "2")] [("A", "1"), ("B", "2")]).combine
        ⟨[("B", "3"), ("C", "4")], [("B", "3"), ("C", "4")]⟩).combine ⟨[("C", "5")], [("C", "5")]⟩ =
      (Validation.mk [("A", "1"), ("B", "2")] [("A", "1"), ("B", "2")]).combine
        ((Validation.mk [("B", "3"), ("C", "4")] [("B", "3"), ("C", "4")]).combine
          ⟨[("C", "5")], [("C", "5")]⟩) :=
  ⟨by decide, by decide, by decide,
    (claim_C4 ⟨[("A", "1"), ("B", "2")], [("A", "1"), ("B", "2")]⟩
      ⟨[("B", "3"), ("C", "4")], [("B", "3"), ("C", "4")]⟩ ⟨[("C", "5")], [("C", "5")]⟩
      (by decide) (by decide) (by decide)).2.2⟩

/-- C6 counterexample: the overlay obtained by validating `clangd` and then
`clang` and combining the results (the combination pattern `validate_tool`
itself uses for `clang-tidy`) has its name-remapping (`tools`) mapping in the
order `clangd`, `clang` — not lexicographic.  The `tools` field is a Rust
`HashMap`, which maintains no key order (the model realizes it in insertion
order); only `env_vars` (a `BTreeMap`) is lexicographically ordered. -/
theorem claim_C6_counterexample :
    combinedOverlay.tools = [("clangd", "clangd-16"), ("clang", "clang-16")] ∧
    ¬ keysSorted combinedOverlay.tools ∧
    keysSorted combinedOverlay.env_vars :=
  ⟨by decide, by decide, by decide⟩

/-- C6 (amended): the variable mapping `env_vars` of every overlay returned by
`validate_tool` is ordered lexicographically by key (it is a `BTreeMap`), and
`combine` preserves that order; the name-remapping `tools` mapping is a
`HashMap` with no defined key order. -/
theorem claim_C6 :
    (∀ (config : Config) (tool : String) (s : Sys) (v : Validation) (s1 : Sys),
      validate_tool config tool s = (.ok v, s1) → keysSorted v.env_vars) ∧
    (∀ v w : Validation, keysSorted v.env_vars → keysSorted (v.combine w).env_vars) := by
  constructor
  · intro config tool s v s1 h
    unfold validate_tool at h
    split at h
    all_goals try (split at h)
    all_goals try (split at h)
    all_goals try (split at h)
    all_goals try (simp at h)
    all_goals try (obtain ⟨rfl, -⟩ := h)
    all_goals try
      (first
        | exact keysSorted_nil
        | exact keysSorted_btExtend _ keysSorted_nil
        | exact keysSorted_btExtend _ (keysSorted_btExtend _ keysSorted_nil))
    all_goals
      (split at h
       · simp at h
       · simp at h
         obtain ⟨rfl, -⟩ := h
         exact keysSorted_nil)
  · intro v w hv
    exact keysSorted_btExtend _ hv

/-- Witness for C6 (amended) at a concrete successful validation. -/
theorem claim_C6_witness :
    keysSorted (okOr (validate_tool testConfig "clang-tidy" (testSys probeSuccess)).1).env_vars :=
  claim_C6.1 testConfig "clang-tidy" (testSys probeSuccess)
    (okOr (validate_tool testConfig "clang-tidy" (testSys probeSuccess)).1)
    (validate_tool testConfig "clang-tidy" (testSys probeSuccess)).2
    (by rfl)

/-- C2: when a version pattern is configured and its first capture group
matches the probe's stdout, the candidate is accepted iff the extracted
version token starts with the configured required-version string (plain
case-sensitive prefix comparison); on prefix mismatch the candidate fails
with a message naming both the expected version and the actual token. -/
theorem claim_C2 (config : Config) (m : String → Option String) (tool : String)
    (tool_elaborated : Option String) (env_vars : KVList) (s : Sys) (out version : String)
    (hrun : s.probe ⟨tool_elaborated.getD tool, ["--version"], env_vars⟩ =
      .ran true (some out))
    (hcap : m out = some version) :
    ((∃ v, (try_validate_clang_tool config (some m) tool tool_elaborated env_vars s).1 =
        .ok v) ↔ strStartsWith version config.clang.version = true) ∧
    (strStartsWith version config.clang.version = false →
      (try_validate_clang_tool config (some m) tool tool_elaborated env_vars s).1 =
        .error ("`" ++ tool ++ "` failed validation; expected version compatible with `"
          ++ config.clang.version ++ "` but found `" ++ version ++ "`")) := by
  have hred : (try_validate_clang_tool config (some m) tool tool_elaborated env_vars s).1 =
      if strStartsWith version config.clang.version then
        .ok ⟨if tool_elaborated.getD tool ≠ tool then
          hmInsert [] tool (tool_elaborated.getD tool) else [], env_vars⟩
      else
        .error ("`" ++ tool ++ "` failed validation; expected version compatible with `"
          ++ config.clang.version ++ "` but found `" ++ version ++ "`") := by
    simp only [try_validate_clang_tool, spawn, Option.isSome_some, if_true, hrun, hcap]
  rw [hred]
  by_cases hpre : strStartsWith version config.clang.version = true
  · simp [hpre]
  · have hpre' : strStartsWith version config.clang.version = false := by
      revert hpre; cases strStartsWith version config.clang.version <;> simp
    simp [hpre']

/-- Witness for C2: with required version `16`, a captured token `15.9.0` is
rejected with a message naming both `16` and `15.9.0`. -/
theorem claim_C2_witness :
    ((∃ v, (try_validate_clang_tool testConfig (some testExtract) "clang" (some "clang-16")
        [] (testSys probeWrongVersion)).1 = .ok v) ↔
      strStartsWith "15.9.0" testConfig.clang.version = true) ∧
    (strStartsWith "15.9.0" testConfig.clang.version = false →
      (try_validate_clang_tool testConfig (some testExtract) "clang" (some "clang-16")
          [] (testSys probeWrongVersion)).1 =
        .error ("`" ++ "clang" ++ "` failed validation; expected version compatible with `"
          ++ testConfig.clang.version ++ "` but found `" ++ "15.9.0" ++ "`")) :=
  claim_C2 testConfig testExtract "clang" (some "clang-16") [] (testSys probeWrongVersion)
    "clang version 15.9.0\n" "15.9.0" (by decide) (by decide)

/-- C3: for a tool with no configured version pattern, any probe that exits
with status zero is accepted outright, whatever its stdout (even invalid
UTF-8, modelled as `none`); no version check is performed. -/
theorem claim_C3 (config : Config) (tool : String) (tool_elaborated : Option String)
    (env_vars : KVList) (s : Sys) (stdout : Option String)
    (hrun : s.probe ⟨tool_elaborated.getD tool, ["--help"], env_vars⟩ = .ran true stdout) :
    (try_validate_clang_tool config none tool tool_elaborated env_vars s).1 =
      .ok ⟨if tool_elaborated.getD tool ≠ tool then
        hmInsert [] tool (tool_elaborated.getD tool) else [], env_vars⟩ := by
  simp [try_validate_clang_tool, spawn, hrun]

/-- Witness for C3 at a concrete matcher-free tool. -/
theorem claim_C3_witness :
    (try_validate_clang_tool testConfig none "clangd" (some "clangd-16") []
        (testSys probeSuccess)).1 =
      .ok ⟨if (some "clangd-16").getD "clangd" ≠ "clangd" then
        hmInsert [] "clangd" ((some "clangd-16").getD "clangd") else [], []⟩ :=
  claim_C3 testConfig "clangd" (some "clangd-16") [] (testSys probeSuccess)
    (some "clang version 16.0.3\n") (by decide)

/-- Inversion for a successful candidate probe: the returned overlay carries
exactly the candidate's environment variables and, when the invoked name
differs from the logical name, the single remapping entry. -/
theorem try_validate_ok_inv {config : Config} {matcher : Option (String → Option String)}
    {tool : String} {tool_elaborated : Option String} {env_vars : KVList} {s : Sys}
    {v : Validation}
    (h : (try_validate_clang_tool config matcher tool tool_elaborated env_vars s).1 = .ok v) :
    v = ⟨if tool_elaborated.getD tool ≠ tool then
      hmInsert [] tool (tool_elaborated.getD tool) else [], env_vars⟩ := by
  simp only [try_validate_clang_tool, spawn] at h
  split at h
  all_goals try (split at h)
  all_goals try (split at h)
  all_goals try (split at h)
  all_goals try (split at h)
  all_goals try (split at h)
  all_goals simp at h
  all_goals subst h
  all_goals simp_all

/-- The source's four hand-written candidate blocks compute exactly the
spec-side ordered iteration over the candidate list. -/
theorem validate_clang_eq_candidates (config : Config) (tool : String) (s : Sys) :
    validate_clang_tool config tool s =
      runCandidates config (config.clang.matchers tool) tool (clangCandidates config tool) s := by
  simp only [validate_clang_tool, runCandidates, clangCandidates, candidateEnv,
    Bool.false_eq_true, if_false, if_true, ite_true, ite_false]
  rcases h1 : try_validate_clang_tool config (config.clang.matchers tool) tool
      (some (tool ++ config.clang.suffix)) [] s with ⟨r1, s1⟩
  try simp only [h1]
  cases r1 with
  | ok v => simp
  | error e1 =>
    rcases h2 : clangSearchPath s1 with e | path
    · simp [h2]
    · try simp only [h2]
      rcases h3 : try_validate_clang_tool config (config.clang.matchers tool) tool
          (some (tool ++ config.clang.suffix)) [("PATH", path)] s1 with ⟨r2, s2⟩
      try simp only [h3]
      cases r2 with
      | ok v => simp
      | error e2 =>
        rcases h4 : try_validate_clang_tool config (config.clang.matchers tool) tool
            none [] s2 with ⟨r3, s3⟩
        try simp only [h4]
        cases r3 with
        | ok v => simp
        | error e3 =>
          rcases h5 : clangSearchPath s3 with e | path2
          · simp [h5]
          · simp [h5]

/-- C1: for a version-sensitive clang-family tool, resolution tries exactly
the four candidates (suffixed name with no extra environment, suffixed name
with extended `PATH`, unsuffixed name with no extra environment, unsuffixed
name with extended `PATH`) in that fixed order, stopping at the first probe
that succeeds and passes version matching; in particular, when both the
suffixed and the unsuffixed binary would independently succeed, the suffixed
one is chosen and the returned overlay maps the logical name to the suffixed
name. -/
theorem claim_C1 (config : Config) (tool : String) (s : Sys) (v v' : Validation)
    (hsuffix : tool ++ config.clang.suffix ≠ tool)
    (h1 : (try_validate_clang_tool config (config.clang.matchers tool) tool
        (some (tool ++ config.clang.suffix)) [] s).1 = .ok v)
    (h3 : (try_validate_clang_tool config (config.clang.matchers tool) tool
        none [] s).1 = .ok v') :
    (∀ s0, validate_clang_tool config tool s0 =
      runCandidates config (config.clang.matchers tool) tool (clangCandidates config tool) s0) ∧
    (validate_clang_tool config tool s).1 = .ok v ∧
    v.tools = [(tool, tool ++ config.clang.suffix)] := by
  refine ⟨fun s0 => validate_clang_eq_candidates config tool s0, ?_, ?_⟩
  · rw [validate_clang_eq_candidates]
    simp only [runCandidates, clangCandidates, candidateEnv, Bool.false_eq_true,
      ite_false, ite_true, if_false, if_true]
    rcases hr : try_validate_clang_tool config (config.clang.matchers tool) tool
        (some (tool ++ config.clang.suffix)) [] s with ⟨r1, s1⟩
    rw [hr] at h1
    simp at h1
    subst h1
    simp [hr]
  · have hv := try_validate_ok_inv h1
    rw [hv]
    simp [hsuffix, hmInsert]

/-- Witness for C1: both `clang-16` and `clang` present and acceptable; the
suffixed binary wins and the overlay remaps `clang` to `clang-16`. -/
theorem claim_C1_witness :
    (∀ s0, validate_clang_tool testConfig "clang" s0 =
      runCandidates testConfig (testConfig.clang.matchers "clang") "clang"
        (clangCandidates testConfig "clang") s0) ∧
    (validate_clang_tool testConfig "clang" (testSys probeBothClang)).1 =
      .ok ⟨[("clang", "clang-16")], []⟩ ∧
    (Validation.mk [("clang", "clang-16")] []).tools =
      [("clang", "clang" ++ testConfig.clang.suffix)] :=
  claim_C1 testConfig "clang" (testSys probeBothClang)
    ⟨[("clang", "clang-16")], []⟩ ⟨[], []⟩ (by decide) (by decide) (by decide)

/-- The splitter `splitOnChar` always yields at least one segment. -/
theorem splitOnChar_ne_nil (sep : Char) (l : List Char) : splitOnChar sep l ≠ [] := by
  cases l with
  | nil => simp [splitOnChar]
  | cons c t =>
    simp only [splitOnChar]
    split
    · simp
    · split <;> simp

/-- No segment produced by `splitOnChar` contains the separator. -/
theorem mem_splitOnChar {sep : Char} (l : List Char) :
    ∀ xs ∈ splitOnChar sep l, sep ∉ xs := by
  induction l with
  | nil =>
    intro xs h
    simp [splitOnChar] at h
    subst h
    simp
  | cons c t ih =>
    intro xs h
    rcases hs : splitOnChar sep t with _ | ⟨hd, r⟩
    · exact absurd hs (splitOnChar_ne_nil sep t)
    · have hrw : splitOnChar sep (c :: t) =
          if c = sep then [] :: hd :: r else (c :: hd) :: r := by
        simp [splitOnChar, hs]
      rw [hrw] at h
      by_cases hc : c = sep
      · rw [if_pos hc] at h
        rcases List.mem_cons.mp h with h | h
        · subst h; simp
        · exact ih xs (by rw [hs]; exact h)
      · rw [if_neg hc] at h
        rcases List.mem_cons.mp h with h | h
        · subst h
          intro hmem
          rcases List.mem_cons.mp hmem with hm | hm
          · exact hc hm.symm
          · exact ih hd (by rw [hs]; exact List.mem_cons_self hd r) hm
        · exact ih xs (by rw [hs]; exact List.mem_cons_of_mem hd h)

/-- No entry of `splitPaths` contains the path separator. -/
theorem mem_splitPaths_no_colon {p x : String} (h : x ∈ splitPaths p) :
    ':' ∉ x.data := by
  simp only [splitPaths, List.mem_map] at h
  obtain ⟨cs, hcs, rfl⟩ := h
  exact mem_splitOnChar p.data cs hcs

theorem mem_setInsert {l : List String} {a x : String} :
    x ∈ setInsert l a ↔ x = a ∨ x ∈ l := by
  induction l with
  | nil => simp [setInsert]
  | cons y t ih =>
    by_cases h1 : strLtB a y = true
    · simp [setInsert, h1]
    · by_cases h2 : a = y
      · subst h2
        simp [setInsert, h1]
        try tauto
      · simp [setInsert, h1, h2, ih]
        try tauto

theorem pairwise_setInsert {l : List String}
    (h : l.Pairwise (fun a b => strLtB a b = true)) (a : String) :
    (setInsert l a).Pairwise (fun a b => strLtB a b = true) := by
  induction l with
  | nil => simp [setInsert]
  | cons y t ih =>
    rw [List.pairwise_cons] at h
    rcases strLtB_trichotomy a y with hlt | heq | hgt
    · rw [show setInsert (y :: t) a = a :: y :: t by simp [setInsert, hlt]]
      rw [List.pairwise_cons]
      refine ⟨?_, List.pairwise_cons.mpr h⟩
      intro b hb
      rcases List.mem_cons.mp hb with hb | hb
      · exact hb ▸ hlt
      · exact strLtB_trans hlt (h.1 b hb)
    · subst heq
      rw [show setInsert (a :: t) a = a :: t by simp [setInsert, strLtB_irrefl]]
      exact List.pairwise_cons.mpr h
    · have hne : ¬a = y := fun hh => strLtB_ne hgt hh.symm
      rw [show setInsert (y :: t) a = y :: setInsert t a by
        simp [setInsert, strLtB_asymm hgt, hne]]
      rw [List.pairwise_cons]
      refine ⟨?_, ih h.2⟩
      intro b hb
      rcases mem_setInsert.mp hb with hb | hb
      · exact hb ▸ hgt
      · exact h.1 b hb

theorem mem_setFold {l : List String} :
    ∀ {acc x}, x ∈ l.foldl setInsert acc ↔ x ∈ acc ∨ x ∈ l := by
  induction l with
  | nil => simp
  | cons y t ih =>
    intro acc x
    rw [List.foldl_cons, ih, mem_setInsert]
    simp [List.mem_cons]
    tauto

theorem pairwise_setFold {l : List String} :
    ∀ {acc}, acc.Pairwise (fun a b => strLtB a b = true) →
      (l.foldl setInsert acc).Pairwise (fun a b => strLtB a b = true) := by
  induction l with
  | nil => intro acc hacc; exact hacc
  | cons y t ih =>
    intro acc hacc
    rw [List.foldl_cons]
    exact ih (pairwise_setInsert hacc y)

theorem mem_setOfList {l : List String} {x : String} : x ∈ setOfList l ↔ x ∈ l := by
  rw [setOfList, mem_setFold]
  simp

theorem pairwise_setOfList (l : List String) :
    (setOfList l).Pairwise (fun a b => strLtB a b = true) :=
  pairwise_setFold List.Pairwise.nil

/-- Joining with `join_paths` succeeds on separator-free entries. -/
theorem joinPaths_ok {l : List String} (h : ∀ x ∈ l, ':' ∉ x.data) :
    joinPaths l = .ok (String.intercalate ":" l) := by
  unfold joinPaths
  have hany : l.any (fun q => q.data.contains ':') = false := by
    rw [List.any_eq_false]
    intro x hx
    exact fun hc => h x hx (List.mem_of_elem_eq_true hc)
  rw [hany]
  simp

/-- C5 counterexample: with ambient `PATH=/b:/a` on a non-macOS host, the
`PATH` value placed in the candidate overlay is the sorted, deduplicated
`/a:/b` — not the unmodified ambient `/b:/a` (the source collects the split
entries into a `BTreeSet` before rejoining them). -/
theorem claim_C5_counterexample :
    candidateEnv true sysPathBA = .ok [("PATH", "/a:/b")] ∧
    candidateEnv true sysPathBA ≠ .ok [("PATH", "/b:/a")] :=
  ⟨by decide, by decide⟩

/-- C5 (amended): on a non-macOS host the search-path augmentation step places
in the candidate overlay exactly the ambient `PATH` entries — nothing added —
but ordered lexicographically with duplicates removed (the `BTreeSet` iteration
order), rejoined with the host path separator. -/
theorem claim_C5 (s : Sys) (p : String)
    (hmac : s.targetMacos = false) (hpath : s.env "PATH" = some p) :
    candidateEnv true s =
      .ok [("PATH", String.intercalate ":" (setOfList (splitPaths p)))] ∧
    (∀ x, x ∈ setOfList (splitPaths p) ↔ x ∈ splitPaths p) ∧
    (setOfList (splitPaths p)).Pairwise (fun a b => strLtB a b = true) := by
  have hsp : clangSearchPath s =
      .ok (String.intercalate ":" (setOfList (splitPaths p))) := by
    unfold clangSearchPath
    rw [hpath, hmac]
    simp only [Bool.false_eq_true, if_false, ite_false, List.foldl_nil]
    exact joinPaths_ok (fun x hx => mem_splitPaths_no_colon (mem_setOfList.mp hx))
  refine ⟨?_, fun x => mem_setOfList, pairwise_setOfList _⟩
  simp [candidateEnv, hsp]

/-- Witness for C5 (amended) at the concrete ambient `PATH=/b:/a`. -/
theorem claim_C5_witness :
    sysPathBA.targetMacos = false ∧
    sysPathBA.env "PATH" = some "/b:/a" ∧
    (candidateEnv true sysPathBA =
      .ok [("PATH", String.intercalate ":" (setOfList (splitPaths "/b:/a")))] ∧
    (∀ x, x ∈ setOfList (splitPaths "/b:/a") ↔ x ∈ splitPaths "/b:/a") ∧
    (setOfList (splitPaths "/b:/a")).Pairwise (fun a b => strLtB a b = true)) :=
  ⟨rfl, rfl, claim_C5 sysPathBA "/b:/a" rfl rfl⟩

/-- C7: every logical tool identifier outside the recognized set fails with
the exact message `unrecognized tool: ...` naming the tool, and the system is
returned untouched — in particular no subprocess is spawned (the trace is
unchanged). -/
theorem claim_C7 (config : Config) (tool : String) (s : Sys)
    (h : tool ∉ recognizedTools) :
    validate_tool config tool s = (.error ("unrecognized tool: `" ++ tool ++ "`"), s) := by
  unfold validate_tool
  split <;> simp_all [recognizedTools]

/-- Witness for C7 at the unrecognized name `frobnicate`. -/
theorem claim_C7_witness :
    validate_tool testConfig "frobnicate" (testSys probeSuccess) =
      (.error ("unrecognized tool: `" ++ "frobnicate" ++ "`"), testSys probeSuccess) :=
  claim_C7 testConfig "frobnicate" (testSys probeSuccess) (by decide)

/-- C8: `validate_rust_toolchain` succeeds iff some line of the
`rustup toolchain list` output starts with the requested channel; when no line
matches, it fails with the install suggestion naming exactly that channel. -/
theorem claim_C8 (toolchain : String) (s : Sys) (out : String)
    (hrun : s.probe ⟨"rustup", ["toolchain", "list"], []⟩ = .ran true (some out)) :
    ((validate_rust_toolchain toolchain s).1 = .ok () ↔
      ∃ l ∈ rustLines out, strStartsWith l toolchain = true) ∧
    ((¬ ∃ l ∈ rustLines out, strStartsWith l toolchain = true) →
      (validate_rust_toolchain toolchain s).1 =
        .error ("could not find toolchain `" ++ toolchain
          ++ "`\nPerhaps you need to install it with `rustup install toolchain "
          ++ toolchain ++ "`?")) := by
  have hred : (validate_rust_toolchain toolchain s).1 =
      if (rustLines out).any (fun entry => strStartsWith entry toolchain) then .ok ()
      else
        .error ("could not find toolchain `" ++ toolchain
          ++ "`\nPerhaps you need to install it with `rustup install toolchain "
          ++ toolchain ++ "`?") := by
    simp only [validate_rust_toolchain, spawn, hrun]
    simp
  rw [hred]
  by_cases hany : (rustLines out).any (fun entry => strStartsWith entry toolchain) = true
  · rw [if_pos hany]
    rw [List.any_eq_true] at hany
    exact ⟨⟨fun _ => hany, fun _ => rfl⟩, fun hne => absurd hany hne⟩
  · rw [if_neg hany]
    refine ⟨⟨fun hc => absurd hc (by simp), fun hex => absurd (List.any_eq_true.mpr hex) hany⟩,
      fun _ => rfl⟩

/-- Witness for C8: channel `nightly-2024-01-01` absent from a listing holding
only a stable toolchain. -/
theorem claim_C8_witness :
    ((validate_rust_toolchain "nightly-2024-01-01" (testSys probeRustupStableOnly)).1 = .ok () ↔
      ∃ l ∈ rustLines "stable-x86_64-unknown-linux-gnu (default)\n",
        strStartsWith l "nightly-2024-01-01" = true) ∧
    ((¬ ∃ l ∈ rustLines "stable-x86_64-unknown-linux-gnu (default)\n",
        strStartsWith l "nightly-2024-01-01" = true) →
      (validate_rust_toolchain "nightly-2024-01-01" (testSys probeRustupStableOnly)).1 =
        .error ("could not find toolchain `" ++ "nightly-2024-01-01"
          ++ "`\nPerhaps you need to install it with `rustup install toolchain "
          ++ "nightly-2024-01-01" ++ "`?")) :=
  claim_C8 "nightly-2024-01-01" (testSys probeRustupStableOnly)
    "stable-x86_64-unknown-linux-gnu (default)\n" (by decide)

/-- C10: every recognized non-clang tool that validates successfully returns
the empty overlay: no name remapping and no environment variables. -/
theorem claim_C10 (config : Config) (tool : String) (s : Sys) (v : Validation) (s1 : Sys)
    (hmem : tool ∈ nonClangTools)
    (h : validate_tool config tool s = (.ok v, s1)) :
    v = Validation.default := by
  simp only [nonClangTools, List.mem_cons, List.not_mem_nil, or_false] at hmem
  rcases hmem with rfl | rfl | rfl | rfl | rfl | rfl | rfl | rfl <;>
    (simp only [validate_tool] at h
     split at h <;> simp at h
     exact h.1.symm)

/-- Witness for C10: `ninja` validates successfully with an empty overlay. -/
theorem claim_C10_witness :
    "ninja" ∈ nonClangTools ∧
    (okOr (validate_tool testConfig "ninja" (testSys probeSuccess)).1 = Validation.default) :=
  ⟨by decide,
    claim_C10 testConfig "ninja" (testSys probeSuccess)
      (okOr (validate_tool testConfig "ninja" (testSys probeSuccess)).1)
      (validate_tool testConfig "ninja" (testSys probeSuccess)).2 (by decide) (by rfl)⟩

/-! ## The frame property (C9): validation only appends to the spawn trace -/

theorem sysEvolves_refl (s : Sys) : sysEvolves s s := ⟨[], by simp⟩

theorem sysEvolves_trans {s1 s2 s3 : Sys} (h1 : sysEvolves s1 s2)
    (h2 : sysEvolves s2 s3) : sysEvolves s1 s3 := by
  obtain ⟨t1, rfl⟩ := h1
  obtain ⟨t2, rfl⟩ := h2
  exact ⟨t1 ++ t2, by simp⟩

theorem sysEvolves_try_validate (config : Config) (matcher : Option (String → Option String))
    (tool : String) (tool_elaborated : Option String) (env_vars : KVList) (s : Sys) :
    sysEvolves s (try_validate_clang_tool config matcher tool tool_elaborated env_vars s).2 :=
  ⟨_, rfl⟩

theorem sysEvolves_validate_cargo_component (config : Config) (tool : String) (s : Sys) :
    sysEvolves s (validate_cargo_component config tool s).2 := by
  simp only [validate_cargo_component]
  split
  · exact ⟨_, rfl⟩
  · exact sysEvolves_refl s

theorem sysEvolves_validate_cargo_tool (tool : String) (s : Sys) :
    sysEvolves s (validate_cargo_tool tool s).2 := ⟨_, rfl⟩

theorem sysEvolves_validate_other_tool (tool : String) (env_vars : KVList) (s : Sys) :
    sysEvolves s (validate_other_tool tool env_vars s).2 := ⟨_, rfl⟩

theorem sysEvolves_validate_python3 (s : Sys) :
    sysEvolves s (validate_python3 s).2 := ⟨_, rfl⟩

theorem sysEvolves_validate_rust_toolchain (toolchain : String) (s : Sys) :
    sysEvolves s (validate_rust_toolchain toolchain s).2 := ⟨_, rfl⟩

theorem sysEvolves_validate_xtask_bin (config : Config) :
    ∀ (retry : Bool) (s : Sys),
      sysEvolves s (validate_xtask_bin config "run-clang-format.py" retry s).2 := by
  have base : ∀ (s : Sys),
      sysEvolves s (validate_xtask_bin config "run-clang-format.py" false s).2 := by
    intro s
    unfold validate_xtask_bin
    simp only [Bool.false_eq_true, if_false, ite_false]
    split
    all_goals try split
    all_goals try split
    all_goals exact ⟨_, rfl⟩
  intro retry s
  cases retry with
  | false => exact base s
  | true =>
    unfold validate_xtask_bin
    simp only [if_true, ite_true]
    split
    all_goals try split
    all_goals try split
    all_goals first
      | exact ⟨_, rfl⟩
      | exact sysEvolves_refl s
      | exact sysEvolves_trans ⟨_, rfl⟩ (base _)

theorem sysEvolves_validate_clang_tool (config : Config) (tool : String) (s : Sys) :
    sysEvolves s (validate_clang_tool config tool s).2 := by
  unfold validate_clang_tool
  rcases h1 : try_validate_clang_tool config (config.clang.matchers tool) tool
      (some (tool ++ config.clang.suffix)) [] s with ⟨r1, s1⟩
  have e1 : sysEvolves s s1 := by
    have hh := sysEvolves_try_validate config (config.clang.matchers tool) tool
      (some (tool ++ config.clang.suffix)) [] s
    rw [h1] at hh
    exact hh
  try simp only [h1]
  cases r1 with
  | ok v => exact e1
  | error e =>
    rcases h2 : clangSearchPath s1 with err | path
    · simp only [h2]
      exact e1
    · simp only [h2]
      rcases h3 : try_validate_clang_tool config (config.clang.matchers tool) tool
          (some (tool ++ config.clang.suffix)) [("PATH", path)] s1 with ⟨r2, s2⟩
      have e2 : sysEvolves s s2 := by
        have hh := sysEvolves_try_validate config (config.clang.matchers tool) tool
          (some (tool ++ config.clang.suffix)) [("PATH", path)] s1
        rw [h3] at hh
        exact sysEvolves_trans e1 hh
      try simp only [h3]
      cases r2 with
      | ok v => exact e2
      | error e =>
        rcases h4 : try_validate_clang_tool config (config.clang.matchers tool) tool
            none [] s2 with ⟨r3, s3⟩
        have e3 : sysEvolves s s3 := by
          have hh := sysEvolves_try_validate config (config.clang.matchers tool) tool none [] s2
          rw [h4] at hh
          exact sysEvolves_trans e2 hh
        try simp only [h4]
        cases r3 with
        | ok v => exact e3
        | error e =>
          rcases h5 : clangSearchPath s3 with err | path2
          · simp only [h5]
            exact e3
          · simp only [h5]
            rcases h6 : try_validate_clang_tool config (config.clang.matchers tool) tool
                none [("PATH", path2)] s3 with ⟨r4, s4⟩
            have e4 : sysEvolves s s4 := by
              have hh := sysEvolves_try_validate config (config.clang.matchers tool) tool
                none [("PATH", path2)] s3
              rw [h6] at hh
              exact sysEvolves_trans e3 hh
            try simp only [h6]
            cases r4 with
            | ok v => exact e4
            | error e => exact e4

theorem sysEvolves_validate_tool (config : Config) (tool : String) (s : Sys) :
    sysEvolves s (validate_tool config tool s).2 := by
  have clangArm : ∀ (t : String),
      sysEvolves s ((match validate_clang_tool config t s with
        | (.ok v, s1) => ((.ok (Validation.default.combine v) : Except String Validation), s1)
        | (.error e, s1) => (.error e, s1)).2) := by
    intro t
    rcases h : validate_clang_tool config t s with ⟨r, s1⟩
    have e1 : sysEvolves s s1 := by
      have hh := sysEvolves_validate_clang_tool config t s
      rw [h] at hh
      exact hh
    try simp only [h]
    cases r <;> exact e1
  have cargoCompArm : ∀ (t : String),
      sysEvolves s ((match validate_cargo_component config t s with
        | (.error e, s1) => ((.error e : Except String Validation), s1)
        | (.ok (), s1) => (.ok Validation.default, s1)).2) := by
    intro t
    rcases h : validate_cargo_component config t s with ⟨r, s1⟩
    have e1 : sysEvolves s s1 := by
      have hh := sysEvolves_validate_cargo_component config t s
      rw [h] at hh
      exact hh
    try simp only [h]
    cases r with
    | error e => exact e1
    | ok u => cases u; exact e1
  have cargoToolArm : ∀ (t : String),
      sysEvolves s ((match validate_cargo_tool t s with
        | (.error e, s1) => ((.error e : Except String Validation), s1)
        | (.ok (), s1) => (.ok Validation.default, s1)).2) := by
    intro t
    rcases h : validate_cargo_tool t s with ⟨r, s1⟩
    have e1 : sysEvolves s s1 := by
      have hh := sysEvolves_validate_cargo_tool t s
      rw [h] at hh
      exact hh
    try simp only [h]
    cases r with
    | error e => exact e1
    | ok u => cases u; exact e1
  have otherArm : ∀ (t : String),
      sysEvolves s ((match validate_other_tool t Validation.default.env_vars s with
        | (.error e, s1) => ((.error e : Except String Validation), s1)
        | (.ok _, s1) => (.ok Validation.default, s1)).2) := by
    intro t
    rcases h : validate_other_tool t Validation.default.env_vars s with ⟨r, s1⟩
    have e1 : sysEvolves s s1 := by
      have hh := sysEvolves_validate_other_tool t Validation.default.env_vars s
      rw [h] at hh
      exact hh
    try simp only [h]
    cases r <;> exact e1
  unfold validate_tool
  split
  · exact clangArm "clang"
  · exact clangArm "clang++"
  · exact clangArm "clangd"
  · -- clang-format
    rcases h : validate_clang_tool config "clang-format" s with ⟨r, s1⟩
    have e1 : sysEvolves s s1 := by
      have hh := sysEvolves_validate_clang_tool config "clang-format" s
      rw [h] at hh
      exact hh
    try simp only [h]
    cases r with
    | error e => exact e1
    | ok v =>
      rcases h2 : validate_python3 s1 with ⟨r2, s2⟩
      have e2 : sysEvolves s s2 := by
        have hh := sysEvolves_validate_python3 s1
        rw [h2] at hh
        exact sysEvolves_trans e1 hh
      try simp only [h2]
      cases r2 with
      | error e => exact e2
      | ok u =>
        cases u
        rcases h3 : validate_xtask_bin config "run-clang-format.py" true s2 with ⟨r3, s3⟩
        have e3 : sysEvolves s s3 := by
          have hh := sysEvolves_validate_xtask_bin config true s2
          rw [h3] at hh
          exact sysEvolves_trans e2 hh
        try simp only [h3]
        cases r3 with
        | error e => exact e3
        | ok u2 => cases u2; exact e3
  · -- clang-tidy
    rcases h : validate_clang_tool config "clang-tidy" s with ⟨r, s1⟩
    have e1 : sysEvolves s s1 := by
      have hh := sysEvolves_validate_clang_tool config "clang-tidy" s
      rw [h] at hh
      exact hh
    try simp only [h]
    cases r with
    | error e => exact e1
    | ok v =>
      rcases h2 : validate_clang_tool config "run-clang-tidy" s1 with ⟨r2, s2⟩
      have e2 : sysEvolves s s2 := by
        have hh := sysEvolves_validate_clang_tool config "run-clang-tidy" s1
        rw [h2] at hh
        exact sysEvolves_trans e1 hh
      try simp only [h2]
      cases r2 <;> exact e2
  · exact cargoCompArm "cargo-clippy"
  · exact cargoCompArm "cargo-fmt"
  · exact cargoCompArm "cargo-miri"
  · exact cargoToolArm "cargo-tarpaulin"
  · exact cargoToolArm "cargo-udeps"
  · exact cargoToolArm "cargo-valgrind"
  · exact otherArm "cmake"
  · exact otherArm "ninja"
  · exact sysEvolves_refl s

/-- C9: validation never mutates the process-global environment: after any
`validate_tool` call the global environment (and the probe, platform and
fetcher components of the system) are exactly as before — only the trace of
spawned subprocesses has grown, each spawn receiving its environment additions
through its own per-candidate overlay; likewise `validate_rust_toolchain`
leaves the global environment unchanged. -/
theorem claim_C9 (config : Config) (tool toolchain : String) (s : Sys) :
    ((validate_tool config tool s).2.env = s.env ∧
      (validate_tool config tool s).2.probe = s.probe ∧
      (validate_tool config tool s).2.targetMacos = s.targetMacos ∧
      (validate_tool config tool s).2.detectMacos = s.detectMacos ∧
      (validate_tool config tool s).2.fetch = s.fetch) ∧
    (∃ t, (validate_tool config tool s).2.trace = s.trace ++ t) ∧
    ((validate_rust_toolchain toolchain s).2.env = s.env) := by
  obtain ⟨t, ht⟩ := sysEvolves_validate_tool config tool s
  obtain ⟨t2, ht2⟩ := sysEvolves_validate_rust_toolchain toolchain s
  rw [ht, ht2]
  exact ⟨⟨rfl, rfl, rfl, rfl, rfl⟩, ⟨t, rfl⟩, rfl⟩

end CxxXtask
